import Mathlib

/-!
Verification of the DebtDude Express backend (src/server.js): a shallow
embedding of the transaction window analyzer, the counterparty ranker, the
grounding classifier and the chat-response router, together with proofs of
the properties stated in the repository's specification.

Conventions of the embedding:
* Timestamps are epoch milliseconds (`Int`); the `moment()` "now" is an
  explicit argument, making the clock injectable.
* Monetary amounts are exact integers standing in for the JS numbers; every
  property checked here is a sign/ordering/sum fact that does not depend on
  the numeric carrier.
* `moment().subtract(1, unit)` is modelled by fixed millisecond durations;
  the calendar-aware length of a month or year is abstracted by the
  constants `monthMs`/`yearMs` (their exact values play no role in any
  property below, only which one the period string selects).
-/

/-- A transaction as consumed by server.js: `{ timestamp, amount, name }`.
`amount > 0` is money received from `name`; `amount < 0` is money spent to
`name`. -/
structure Transaction where
  timestamp : Int
  amount : Int
  name : String
deriving Repr, DecidableEq

/-- Milliseconds in one day. -/
def dayMs : Int := 86400000

/-- Milliseconds in one week. -/
def weekMs : Int := 7 * dayMs

/-- Abstraction of `moment().subtract(1, 'month')` as a fixed duration. -/
def monthMs : Int := 30 * dayMs

/-- Abstraction of `moment().subtract(1, 'year')` as a fixed duration. -/
def yearMs : Int := 365 * dayMs

/-- Lines 23-38 of server.js: the `switch(period)` selecting the lookback
duration; any unrecognized period falls through to one week. -/
def lookbackMs (period : String) : Int :=
  if period = "day" then dayMs
  else if period = "week" then weekMs
  else if period = "month" then monthMs
  else if period = "year" then yearMs
  else weekMs

/-- Lines 20-38: `startDate = now.clone().subtract(1, unit)`. -/
def startDate (now : Int) (period : String) : Int := now - lookbackMs period

/-- Lines 40-42: keep the transactions with
`moment(t.timestamp).isAfter(startDate)`, a strict comparison. -/
def windowFilter (transactions : List Transaction) (period : String) (now : Int) :
    List Transaction :=
  transactions.filter (fun t => decide (startDate now period < t.timestamp))

/-- One `people[name]` record of `getTopPeople` (lines 66-79). -/
structure CounterpartyAggregate where
  name : String
  amount : Int
  count : Nat
deriving Repr, DecidableEq

/-- The per-transaction update of lines 72-73: add `|t.amount|` to the
aggregate for `t.name` and bump its count; other aggregates are untouched. -/
def updFor (t : Transaction) (g : CounterpartyAggregate) : CounterpartyAggregate :=
  if g.name = t.name then
    { g with amount := g.amount + (t.amount.natAbs : Int), count := g.count + 1 }
  else g

/-- The property names a plain `{}` object inherits from `Object.prototype`
in Node: each is bound to a function (or, for `__proto__`, to the accessor
yielding the prototype object), hence truthy. The lookup `people[t.name]` on
line 69 walks the prototype chain, so for these names it finds an inherited
truthy value even when `people` has no own entry. -/
def objectProtoKeys : List String :=
  ["constructor", "hasOwnProperty", "isPrototypeOf", "propertyIsEnumerable",
   "toLocaleString", "toString", "valueOf", "__proto__", "__defineGetter__",
   "__defineSetter__", "__lookupGetter__", "__lookupSetter__"]

/-- One iteration of the `forEach` loop (lines 68-74), tracking the own
entries of the `people` object. `if (!people[t.name])` is a prototype-chain
lookup: an existing own entry is the truthy record of line 70, so lines
72-73 update it; otherwise, if the name is an `Object.prototype` property,
the inherited value is truthy too, so line 70 is skipped and lines 72-73
mutate that prototype member — invisible to `Object.values(people)`, leaving
the own entries unchanged; only for the remaining names is a fresh zero
entry created (line 70) and then updated. -/
def addTxn (groups : List CounterpartyAggregate) (t : Transaction) :
    List CounterpartyAggregate :=
  if groups.any (fun g => decide (g.name = t.name)) then
    groups.map (updFor t)
  else if t.name ∈ objectProtoKeys then
    groups
  else
    (groups ++ [({ name := t.name, amount := 0, count := 0 } : CounterpartyAggregate)]).map
      (updFor t)

/-- The own entries of the `people` object of lines 67-74, in property
creation order; how `Object.values` enumerates them is modelled separately
by `jsValues`. -/
def buildPeople (transactions : List Transaction) : List CounterpartyAggregate :=
  transactions.foldl addTxn []

/-- Numeric value of a digit string. -/
def digitsToNat (cs : List Char) : Nat :=
  cs.foldl (fun n c => 10 * n + (c.toNat - 48)) 0

/-- Whether a property key is a canonical array index (`"0"`, `"1"`, ...,
an integer below `2^32 - 1` written without leading zeros). `Object.values`
lists such keys first, in ascending numeric order, before the remaining
string keys in insertion order. -/
def isCanonicalIndex : List Char → Bool
  | [] => false
  | ['0'] => true
  | c :: cs => (c :: cs).all Char.isDigit && c != '0' &&
      decide (digitsToNat (c :: cs) < 4294967295)

/-- Ascending insertion by numeric value of the (unique) index keys. -/
def insertByIndex (g : CounterpartyAggregate) :
    List CounterpartyAggregate → List CounterpartyAggregate
  | [] => [g]
  | h :: t => if digitsToNat g.name.data < digitsToNat h.name.data then g :: h :: t
      else h :: insertByIndex g t

/-- Sort the array-index-keyed entries ascending by numeric value. -/
def sortByIndex : List CounterpartyAggregate → List CounterpartyAggregate
  | [] => []
  | h :: t => insertByIndex h (sortByIndex t)

/-- `Object.values(people)` (line 76): array-index-like keys in ascending
numeric order first, then the remaining keys in insertion order. -/
def jsValues (l : List CounterpartyAggregate) : List CounterpartyAggregate :=
  sortByIndex (l.filter (fun g => isCanonicalIndex g.name.data)) ++
    l.filter (fun g => !isCanonicalIndex g.name.data)

/-- Insert into a descending-by-amount list, before the first entry whose
amount is `≤` the inserted one. -/
def insertByAmount (g : CounterpartyAggregate) :
    List CounterpartyAggregate → List CounterpartyAggregate
  | [] => [g]
  | h :: t => if h.amount ≤ g.amount then g :: h :: t else h :: insertByAmount g t

/-- Line 77: `.sort((a, b) => b.amount - a.amount)`. `Array.prototype.sort` is
stable, so it denotes exactly the stable descending reordering computed by
this insertion sort. -/
def sortByAmountDesc : List CounterpartyAggregate → List CounterpartyAggregate
  | [] => []
  | h :: t => insertByAmount h (sortByAmountDesc t)

/-- Lines 66-79: group by name into the `people` object, enumerate with
`Object.values`, sort descending by accumulated absolute amount, keep the
first five (`.slice(0, 5)`). -/
def getTopPeople (transactions : List Transaction) : List CounterpartyAggregate :=
  (sortByAmountDesc (jsValues (buildPeople transactions))).take 5

/-- The record returned by `analyzeTransactions` (lines 55-63). -/
structure AnalysisSummary where
  period : String
  totalSpent : Int
  totalReceived : Int
  netAmount : Int
  transactionCount : Nat
  topSenders : List CounterpartyAggregate
  topReceivers : List CounterpartyAggregate
deriving Repr, DecidableEq

/-- Lines 19-64: filter to the window, then aggregate. The JS `reduce` from 0
is `foldl`; callers that omit the period get `"week"` (the JS default
parameter). -/
def analyzeTransactions (transactions : List Transaction) (period : String)
    (now : Int) : AnalysisSummary :=
  let filteredTransactions := windowFilter transactions period now
  let totalSpent := (filteredTransactions.filter (fun t => decide (t.amount < 0))).foldl
    (fun sum t => sum + (t.amount.natAbs : Int)) 0
  let totalReceived := (filteredTransactions.filter (fun t => decide (t.amount > 0))).foldl
    (fun sum t => sum + t.amount) 0
  { period := period,
    totalSpent := totalSpent,
    totalReceived := totalReceived,
    netAmount := totalReceived - totalSpent,
    transactionCount := filteredTransactions.length,
    topSenders := getTopPeople (filteredTransactions.filter (fun t => decide (t.amount > 0))),
    topReceivers := getTopPeople (filteredTransactions.filter (fun t => decide (t.amount < 0))) }

/-- Lines 82-86: the fixed keyword list of the classifier. -/
def transactionKeywords : List String :=
  ["balance", "spend", "spent", "expense", "income", "receive", "received",
   "transaction", "money", "payment", "transfer", "budget", "financial",
   "analysis", "summary", "total", "amount", "cost", "price", "bill"]

/-- Character-level model of `String.prototype.toLowerCase` (ASCII, which is
all the keyword matching depends on). -/
def toLowerCase (s : String) : List Char := s.data.map Char.toLower

/-- Whether `needle` is an initial segment of `hay`. -/
def listStartsWith : List Char → List Char → Bool
  | [], _ => true
  | _ :: _, [] => false
  | c :: cs, d :: ds => c == d && listStartsWith cs ds

/-- `String.prototype.includes` at the character-list level: `needle` occurs
contiguously somewhere inside `hay`. -/
def listOccurs (needle : List Char) : List Char → Bool
  | [] => needle.isEmpty
  | c :: cs => listStartsWith needle (c :: cs) || listOccurs needle cs

/-- Lines 81-91 (`requiresTransactionData`): does any keyword occur as a
substring of the lower-cased message? -/
def requiresTransactionData (message : String) : Bool :=
  transactionKeywords.any (fun keyword => listOccurs keyword.data (toLowerCase message))

/-- The information interpolated into the two prompt templates (lines 102-110
and 113-115). The grounded template embeds the message, the JSON of the
analysis, and the JSON of `userTransactions.slice(-10)`; the ungrounded one
embeds only the message. The JSON rendering is abstracted: the constructor
arguments are exactly the data the template interpolates. -/
inductive Prompt where
  | grounded (message : String) (analysis : AnalysisSummary) (excerpt : List Transaction)
  | ungrounded (message : String)
deriving Repr, DecidableEq

/-- JS `array.slice(-10)`: the last ten elements, or the whole array when it
is shorter. -/
def lastTen (l : List Transaction) : List Transaction := l.drop (l.length - 10)

/-- Lines 93-133, `generateChatResponse`. The argument `gen` models the axios
call together with the extraction `response.data.candidates[0].content.parts[0].text`;
`none` stands for any failure (network error, malformed response, rate
limit), all of which the `catch` at lines 129-132 maps to `null`.

The flag `promptInScope` records whether the identifier `prompt` resolves at
the request-construction site (line 120). In the source both `const prompt`
declarations (lines 102 and 113) are block-scoped to the arms of the
if/else, so at line 120 the name is unresolved: Node throws a
`ReferenceError` while evaluating the request body, the generator is never
reached, and the `catch` returns `null`. Hence `promptInScope = false` is
the code as written, while `promptInScope = true` is the evident intent (the
constructed prompt reaching the generator).

The second component of the result is the list of prompts actually handed to
the generator (empty when it is never invoked). -/
def generateChatResponse (promptInScope : Bool) (gen : Prompt → Option String)
    (message : String) (userTransactions : Option (List Transaction)) (now : Int) :
    Option String × List Prompt :=
  if requiresTransactionData message then
    match userTransactions with
    | none => (none, [])
    | some txns =>
      if txns.length = 0 then (none, [])
      else
        let analysis := analyzeTransactions txns "week" now
        let p := Prompt.grounded message analysis (lastTen txns)
        if promptInScope then
          match gen p with
          | some text => (some text, [p])
          | none => (none, [p])
        else (none, [])
  else
    let p := Prompt.ungrounded message
    if promptInScope then
      match gen p with
      | some text => (some text, [p])
      | none => (none, [p])
    else (none, [])

/-- The router outcome in the specification's vocabulary. -/
inductive RoutedResult where
  | Grounded (text : String)
  | Ungrounded (text : String)
  | Refused
deriving Repr, DecidableEq

/-- The specification's `route` view of `generateChatResponse`: a `null`
result is the refusal the message endpoint surfaces as an error (lines
250-254), and a produced text is `Grounded` exactly when the classifier
demanded grounding (the grounded template path). -/
def route (promptInScope : Bool) (gen : Prompt → Option String) (message : String)
    (userTransactions : Option (List Transaction)) (now : Int) : RoutedResult :=
  match (generateChatResponse promptInScope gen message userTransactions now).1 with
  | none => RoutedResult.Refused
  | some t =>
    if requiresTransactionData message then RoutedResult.Grounded t
    else RoutedResult.Ungrounded t

/-- Names of the aggregates, in order. -/
def namesOf (l : List CounterpartyAggregate) : List String := l.map (fun g => g.name)

/-- Total accumulated amount held for the name `n`. -/
def amountFor (n : String) (l : List CounterpartyAggregate) : Int :=
  ((l.filter (fun g => decide (g.name = n))).map (fun g => g.amount)).sum

/-- Total accumulated count held for the name `n`. -/
def countFor (n : String) (l : List CounterpartyAggregate) : Nat :=
  ((l.filter (fun g => decide (g.name = n))).map (fun g => g.count)).sum

/-- Sum of all counts of a group list. -/
def totCnt (l : List CounterpartyAggregate) : Nat := (l.map (fun g => g.count)).sum

/-- Sum of `|amount|` over the transactions whose name is `n`. -/
def txnAbsSum (n : String) (ts : List Transaction) : Int :=
  ((ts.filter (fun t => decide (t.name = n))).map (fun t => (t.amount.natAbs : Int))).sum

/-- Number of transactions whose name is `n`. -/
def txnCountFor (n : String) (ts : List Transaction) : Nat :=
  (ts.filter (fun t => decide (t.name = n))).length

/-- First-occurrence order of a list of names. -/
def firstOccNames (ns : List String) : List String :=
  ns.foldl (fun acc n => if n ∈ acc then acc else acc ++ [n]) []

/-- A generator stub that always answers. -/
def sampleGen : Prompt → Option String := fun _ => some "ok"

/-- A generator stub that always fails. -/
def failGen : Prompt → Option String := fun _ => none

/-- The specification's classifier example message, `What's my BALANCE?`
(the apostrophe is character 39). -/
def exampleBalanceMsg : String :=
  String.mk ['W', 'h', 'a', 't', Char.ofNat 39, 's', ' ', 'm', 'y', ' ',
             'B', 'A', 'L', 'A', 'N', 'C', 'E', '?']

/-- Sample transactions used by concrete witnesses. -/
def demoTxns : List Transaction :=
  [⟨0, -50, "Bob"⟩, ⟨10, 200, "Alice"⟩, ⟨20, -30, "Bob"⟩]

/-! ### Router lemmas -/

/-- The grounding gate of lines 96-99: a message that requires transaction
data together with an absent or empty transaction list is answered `null`
before any prompt is built, so the generator log stays empty. -/
theorem gateRefuses (b : Bool) (gen : Prompt → Option String) (m : String)
    (txns : Option (List Transaction)) (now : Int)
    (hreq : requiresTransactionData m = true) (hempty : txns = none ∨ txns = some []) :
    generateChatResponse b gen m txns now = (none, []) := by
  rcases hempty with h | h <;> subst h <;> simp [generateChatResponse, hreq]

/-- Whatever failure mode the generator exhibits, the result is `null`; the
`catch` of lines 129-132 erases the distinction with the missing-data case. -/
theorem genFailNone (b : Bool) (gen : Prompt → Option String) (m : String)
    (txns : Option (List Transaction)) (now : Int) (hgen : ∀ p, gen p = none) :
    (generateChatResponse b gen m txns now).1 = none := by
  by_cases hr : requiresTransactionData m
  · cases txns with
    | none => simp [generateChatResponse, hr]
    | some l =>
      by_cases hl : l.length = 0
      · simp [generateChatResponse, hr, hl]
      · cases b <;> simp [generateChatResponse, hr, hl, hgen]
  · cases b <;> simp [generateChatResponse, hr, hgen]

/-- A `null` first component is routed as `Refused`. -/
theorem routeOfNone (b : Bool) (gen : Prompt → Option String) (m : String)
    (txns : Option (List Transaction)) (now : Int)
    (h : (generateChatResponse b gen m txns now).1 = none) :
    route b gen m txns now = RoutedResult.Refused := by
  simp [route, h]

/-- C1: for every message the classifier flags and every absent or empty
transaction argument, `route` yields `Refused`, the generation function
returns the no-answer value, and the external generator is never invoked
(empty prompt log), independent of the message content. -/
theorem claim1_gate_refuses_without_data (b : Bool) (gen : Prompt → Option String)
    (m : String) (txns : Option (List Transaction)) (now : Int)
    (hreq : requiresTransactionData m = true) (hempty : txns = none ∨ txns = some []) :
    generateChatResponse b gen m txns now = (none, []) ∧
    route b gen m txns now = RoutedResult.Refused := by
  have h := gateRefuses b gen m txns now hreq hempty
  exact ⟨h, routeOfNone b gen m txns now (by rw [h])⟩

theorem claim1_witness :
    generateChatResponse true sampleGen "balance" none 0 = (none, []) ∧
    route true sampleGen "balance" none 0 = RoutedResult.Refused :=
  claim1_gate_refuses_without_data true sampleGen "balance" none 0 (by decide) (Or.inl rfl)

/-- C2 counterexample: on the message `Give me a budgeting tip` the
classifier returns `true` (the keyword `budget` occurs inside `budgeting`),
so with no transactions and a generator that would happily answer, the route
is `Refused`, not `Ungrounded`. -/
theorem claim2_counterexample :
    requiresTransactionData "Give me a budgeting tip" ≠ false ∧
    route true sampleGen "Give me a budgeting tip" none 0 = RoutedResult.Refused := by
  constructor
  · decide
  · rfl

/-- C2 amended: for the message `Give me a budgeting tip` with no
transactions supplied, the classifier returns `true`, so `route` yields
`Refused` and the external generator is never invoked. -/
theorem claim2_budgeting_tip_refused (b : Bool) (gen : Prompt → Option String) (now : Int) :
    requiresTransactionData "Give me a budgeting tip" = true ∧
    generateChatResponse b gen "Give me a budgeting tip" none now = (none, []) ∧
    route b gen "Give me a budgeting tip" none now = RoutedResult.Refused := by
  have h := gateRefuses b gen "Give me a budgeting tip" none now (by decide) (Or.inl rfl)
  exact ⟨by decide, h, routeOfNone b gen "Give me a budgeting tip" none now (by rw [h])⟩

/-- C7: when every generator call fails (network error, malformed response,
rate limit — all modelled by `gen` returning `none`), the result is the
no-answer value and the route is `Refused`, exactly as in the missing-data
case; no partial text is surfaced. -/
theorem claim7_generator_failure_refused (b : Bool) (gen : Prompt → Option String)
    (m : String) (txns : Option (List Transaction)) (now : Int)
    (hgen : ∀ p, gen p = none) :
    (generateChatResponse b gen m txns now).1 = none ∧
    route b gen m txns now = RoutedResult.Refused := by
  have h := genFailNone b gen m txns now hgen
  exact ⟨h, routeOfNone b gen m txns now h⟩

theorem claim7_witness :
    (generateChatResponse true failGen "hello" (some [⟨0, 5, "A"⟩]) 0).1 = none ∧
    route true failGen "hello" (some [⟨0, 5, "A"⟩]) 0 = RoutedResult.Refused :=
  claim7_generator_failure_refused true failGen "hello" (some [⟨0, 5, "A"⟩]) 0 (fun _ => rfl)

/-- C8: at a grounding message with a non-empty transaction list, the code as
written (`promptInScope = false`, the block-scoped `const prompt` never
reaching line 120) returns `null` with an empty generator log, while the
intended data flow (`promptInScope = true`) would hand the generator exactly
the week-period analysis summary and the `slice(-10)` excerpt. -/
theorem claim8_prompt_out_of_scope :
    generateChatResponse false sampleGen "What is my balance?"
      (some [⟨0, -50, "Bob"⟩]) 1000 = (none, []) ∧
    (generateChatResponse true sampleGen "What is my balance?"
      (some [⟨0, -50, "Bob"⟩]) 1000).2 =
      [Prompt.grounded "What is my balance?"
        (analyzeTransactions [⟨0, -50, "Bob"⟩] "week" 1000) [⟨0, -50, "Bob"⟩]] ∧
    lastTen [⟨0, -50, "Bob"⟩] = [⟨0, -50, "Bob"⟩] := by
  refine ⟨rfl, rfl, rfl⟩

/-! ### Classifier lemmas -/

/-- Correctness of the prefix test. -/
theorem listStartsWith_iff (needle : List Char) : ∀ hay : List Char,
    listStartsWith needle hay = true ↔ ∃ rest, hay = needle ++ rest := by
  induction needle with
  | nil => intro hay; simp [listStartsWith]
  | cons c cs ih =>
    intro hay
    cases hay with
    | nil => simp [listStartsWith]
    | cons d ds =>
      simp only [listStartsWith, Bool.and_eq_true, beq_iff_eq, ih ds, List.cons_append,
        List.cons.injEq]
      constructor
      · rintro ⟨rfl, r, rfl⟩; exact ⟨r, rfl, rfl⟩
      · rintro ⟨r, rfl, rfl⟩; exact ⟨rfl, r, rfl⟩

/-- Correctness of the substring test: `listOccurs` decides contiguous
occurrence. -/
theorem listOccurs_iff (needle : List Char) : ∀ hay : List Char,
    listOccurs needle hay = true ↔ ∃ s t, hay = s ++ needle ++ t := by
  intro hay
  induction hay with
  | nil =>
    simp only [listOccurs, List.isEmpty_iff]
    constructor
    · rintro rfl; exact ⟨[], [], rfl⟩
    · rintro ⟨s, t, h⟩
      rcases List.append_eq_nil.1 (List.append_eq_nil.1 h.symm).1 with ⟨-, h2⟩
      exact h2
  | cons c cs ih =>
    simp only [listOccurs, Bool.or_eq_true, listStartsWith_iff, ih]
    constructor
    · rintro (⟨r, hr⟩ | ⟨s, t, hst⟩)
      · exact ⟨[], r, by simp [hr]⟩
      · exact ⟨c :: s, t, by simp [hst]⟩
    · rintro ⟨s, t, hst⟩
      cases s with
      | nil => exact Or.inl ⟨t, by simpa using hst⟩
      | cons x xs =>
        rw [List.cons_append, List.cons_append, List.cons.injEq] at hst
        exact Or.inr ⟨xs, t, hst.2⟩

/-- C6: the classifier returns `true` exactly when some keyword of the fixed
list occurs as a substring of the lower-cased message; the empty message is
`false`, `What's my BALANCE?` is `true`, and `Hello, how are you?` is
`false`. -/
theorem claim6_classifier_spec (m : String) :
    (requiresTransactionData m = true ↔
      ∃ k ∈ transactionKeywords, ∃ s t, toLowerCase m = s ++ k.data ++ t)
  ∧ requiresTransactionData "" = false
  ∧ requiresTransactionData exampleBalanceMsg = true
  ∧ requiresTransactionData "Hello, how are you?" = false := by
  refine ⟨?_, by decide, by decide, by decide⟩
  unfold requiresTransactionData
  rw [List.any_eq_true]
  constructor
  · rintro ⟨k, hk, hocc⟩; exact ⟨k, hk, (listOccurs_iff k.data (toLowerCase m)).1 hocc⟩
  · rintro ⟨k, hk, hocc⟩; exact ⟨k, hk, (listOccurs_iff k.data (toLowerCase m)).2 hocc⟩

theorem claim6_witness :
    ∃ k ∈ transactionKeywords, ∃ s t, toLowerCase exampleBalanceMsg = s ++ k.data ++ t :=
  (claim6_classifier_spec exampleBalanceMsg).1.mp (by decide)

/-! ### Window analyzer lemmas -/

/-- The JS `reduce((sum, t) => sum + f(t), a)` is the sum of the mapped
list. -/
theorem foldl_add_eq_sum (f : Transaction → Int) (l : List Transaction) (a : Int) :
    l.foldl (fun sum t => sum + f t) a = a + (l.map f).sum := by
  induction l generalizing a with
  | nil => simp
  | cons t ts ih => simp [ih, add_assoc]

/-- C3: in every summary, `totalSpent` is the sum of `|amount|` over
in-window negative transactions, `totalReceived` the sum of positive
in-window amounts, `transactionCount` the in-window cardinality, both totals
are non-negative, and `netAmount = totalReceived - totalSpent`. -/
theorem claim3_summary_invariants (ts : List Transaction) (p : String) (now : Int) :
    (analyzeTransactions ts p now).totalSpent =
      (((windowFilter ts p now).filter (fun t => decide (t.amount < 0))).map
        (fun t => (t.amount.natAbs : Int))).sum
  ∧ (analyzeTransactions ts p now).totalReceived =
      (((windowFilter ts p now).filter (fun t => decide (t.amount > 0))).map
        (fun t => t.amount)).sum
  ∧ (analyzeTransactions ts p now).transactionCount = (windowFilter ts p now).length
  ∧ 0 ≤ (analyzeTransactions ts p now).totalSpent
  ∧ 0 ≤ (analyzeTransactions ts p now).totalReceived
  ∧ (analyzeTransactions ts p now).netAmount =
      (analyzeTransactions ts p now).totalReceived - (analyzeTransactions ts p now).totalSpent := by
  have hs : (analyzeTransactions ts p now).totalSpent =
      (((windowFilter ts p now).filter (fun t => decide (t.amount < 0))).map
        (fun t => (t.amount.natAbs : Int))).sum := by
    simp [analyzeTransactions, foldl_add_eq_sum]
  have hr : (analyzeTransactions ts p now).totalReceived =
      (((windowFilter ts p now).filter (fun t => decide (t.amount > 0))).map
        (fun t => t.amount)).sum := by
    have := foldl_add_eq_sum (fun t => t.amount)
      ((windowFilter ts p now).filter (fun t => decide (t.amount > 0))) 0
    simpa [analyzeTransactions] using this
  refine ⟨hs, hr, by simp [analyzeTransactions], ?_, ?_, by simp [analyzeTransactions]⟩
  · rw [hs]
    apply List.sum_nonneg
    intro x hx
    rcases List.mem_map.1 hx with ⟨t, -, rfl⟩
    exact Int.natCast_nonneg _
  · rw [hr]
    apply List.sum_nonneg
    intro x hx
    rcases List.mem_map.1 hx with ⟨t, ht, rfl⟩
    have := (List.mem_filter.1 ht).2
    have : 0 < t.amount := by simpa using this
    omega

/-- C5: the window keeps exactly the transactions strictly after
`now - lookback(period)`; the lookback map sends the four recognized period
strings to their durations and every other string to the week duration. -/
theorem claim5_window_selection (ts : List Transaction) (p : String) (now : Int)
    (t : Transaction) :
    (t ∈ windowFilter ts p now ↔ t ∈ ts ∧ now - lookbackMs p < t.timestamp)
  ∧ lookbackMs "day" = dayMs ∧ lookbackMs "week" = weekMs
  ∧ lookbackMs "month" = monthMs ∧ lookbackMs "year" = yearMs
  ∧ (p ∉ (["day", "week", "month", "year"] : List String) → lookbackMs p = weekMs)
  ∧ (analyzeTransactions ts p now).transactionCount = (windowFilter ts p now).length := by
  refine ⟨?_, rfl, rfl, rfl, rfl, ?_, by simp [analyzeTransactions]⟩
  · simp [windowFilter, startDate, List.mem_filter]
  · intro h
    simp only [List.mem_cons, List.not_mem_nil, or_false, not_or] at h
    obtain ⟨h1, h2, h3, h4⟩ := h
    unfold lookbackMs
    rw [if_neg h1, if_neg h2, if_neg h3, if_neg h4]

theorem claim5_witness :
    lookbackMs "fortnight" = weekMs ∧
    ((⟨0, 5, "A"⟩ : Transaction) ∈ windowFilter [⟨0, 5, "A"⟩] "fortnight" 0 ↔
      (⟨0, 5, "A"⟩ : Transaction) ∈ [(⟨0, 5, "A"⟩ : Transaction)] ∧
        (0 : Int) - lookbackMs "fortnight" < (⟨0, 5, "A"⟩ : Transaction).timestamp) := by
  have h := claim5_window_selection [⟨0, 5, "A"⟩] "fortnight" 0 ⟨0, 5, "A"⟩
  exact ⟨h.2.2.2.2.2.1 (by decide), h.1⟩

/-- C9: the end-to-end scenario of the specification, for an arbitrary base
instant `T0`: Bob sent 50 away at `T0`, Alice paid 200 in at `T0 + 1h`,
analyzed over a week at `now = T0 + 2h`. -/
theorem claim9_scenario (T0 : Int) :
    analyzeTransactions [⟨T0, -50, "Bob"⟩, ⟨T0 + 3600000, 200, "Alice"⟩] "week"
      (T0 + 7200000) =
      ⟨"week", 50, 200, 150, 2, [⟨"Alice", 200, 1⟩], [⟨"Bob", 50, 1⟩]⟩ := by
  have hl : lookbackMs "week" = 604800000 := by decide
  have hs : startDate (T0 + 7200000) "week" = T0 - 597600000 := by
    simp only [startDate, hl]
    omega
  have hw : windowFilter [⟨T0, -50, "Bob"⟩, ⟨T0 + 3600000, 200, "Alice"⟩] "week"
      (T0 + 7200000) = [⟨T0, -50, "Bob"⟩, ⟨T0 + 3600000, 200, "Alice"⟩] := by
    have h1 : T0 - 597600000 < T0 := by omega
    have h2 : T0 - 597600000 < T0 + 3600000 := by omega
    simp [windowFilter, hs, List.filter, h1, h2]
  simp only [analyzeTransactions, hw]
  rfl

/-- Filtering by a predicate the middle transaction fails is insensitive to
that transaction. -/
theorem filter_skips_middle (q : Transaction → Bool) (t : Transaction)
    (l r : List Transaction) (hq : q t = false) :
    (l ++ t :: r).filter q = (l ++ r).filter q := by
  simp [List.filter_append, List.filter_cons, hq]

/-- C10: an in-window transaction with amount exactly 0 is counted in
`transactionCount` but contributes nothing to the totals and changes neither
ranking: dropping it from the input leaves every other summary field
unchanged and lowers the count by one. -/
theorem claim10_zero_amount_inert (ts₁ ts₂ : List Transaction) (p : String)
    (now : Int) (t : Transaction) (h0 : t.amount = 0)
    (hin : startDate now p < t.timestamp) :
    (analyzeTransactions (ts₁ ++ t :: ts₂) p now).transactionCount
      = (analyzeTransactions (ts₁ ++ ts₂) p now).transactionCount + 1
  ∧ (analyzeTransactions (ts₁ ++ t :: ts₂) p now).totalSpent
      = (analyzeTransactions (ts₁ ++ ts₂) p now).totalSpent
  ∧ (analyzeTransactions (ts₁ ++ t :: ts₂) p now).totalReceived
      = (analyzeTransactions (ts₁ ++ ts₂) p now).totalReceived
  ∧ (analyzeTransactions (ts₁ ++ t :: ts₂) p now).netAmount
      = (analyzeTransactions (ts₁ ++ ts₂) p now).netAmount
  ∧ (analyzeTransactions (ts₁ ++ t :: ts₂) p now).topSenders
      = (analyzeTransactions (ts₁ ++ ts₂) p now).topSenders
  ∧ (analyzeTransactions (ts₁ ++ t :: ts₂) p now).topReceivers
      = (analyzeTransactions (ts₁ ++ ts₂) p now).topReceivers := by
  have hwA : windowFilter (ts₁ ++ t :: ts₂) p now =
      windowFilter ts₁ p now ++ t :: windowFilter ts₂ p now := by
    simp [windowFilter, List.filter_append, List.filter_cons, decide_eq_true hin]
  have hwB : windowFilter (ts₁ ++ ts₂) p now =
      windowFilter ts₁ p now ++ windowFilter ts₂ p now := by
    simp [windowFilter, List.filter_append]
  have hneg : decide (t.amount < 0) = false := by rw [h0]; rfl
  have hpos : decide (t.amount > 0) = false := by rw [h0]; rfl
  have hfneg := filter_skips_middle (fun x => decide (x.amount < 0)) t
    (windowFilter ts₁ p now) (windowFilter ts₂ p now) hneg
  have hfpos := filter_skips_middle (fun x => decide (x.amount > 0)) t
    (windowFilter ts₁ p now) (windowFilter ts₂ p now) hpos
  refine ⟨?_, ?_, ?_, ?_, ?_, ?_⟩ <;>
    simp [analyzeTransactions, hwA, hwB, hfneg, hfpos]
  omega

theorem claim10_witness :
    (analyzeTransactions ([] ++ ⟨0, 0, "Zed"⟩ :: []) "week" 0).transactionCount
      = (analyzeTransactions ([] ++ []) "week" 0).transactionCount + 1
  ∧ (analyzeTransactions ([] ++ ⟨0, 0, "Zed"⟩ :: []) "week" 0).totalSpent
      = (analyzeTransactions ([] ++ []) "week" 0).totalSpent
  ∧ (analyzeTransactions ([] ++ ⟨0, 0, "Zed"⟩ :: []) "week" 0).totalReceived
      = (analyzeTransactions ([] ++ []) "week" 0).totalReceived
  ∧ (analyzeTransactions ([] ++ ⟨0, 0, "Zed"⟩ :: []) "week" 0).netAmount
      = (analyzeTransactions ([] ++ []) "week" 0).netAmount
  ∧ (analyzeTransactions ([] ++ ⟨0, 0, "Zed"⟩ :: []) "week" 0).topSenders
      = (analyzeTransactions ([] ++ []) "week" 0).topSenders
  ∧ (analyzeTransactions ([] ++ ⟨0, 0, "Zed"⟩ :: []) "week" 0).topReceivers
      = (analyzeTransactions ([] ++ []) "week" 0).topReceivers :=
  claim10_zero_amount_inert [] [] "week" 0 ⟨0, 0, "Zed"⟩ rfl (by decide)

/-! ### Counterparty ranker lemmas -/

/-- The update step keeps the aggregate's name. -/
theorem updFor_name (t : Transaction) (g : CounterpartyAggregate) :
    (updFor t g).name = g.name := by
  unfold updFor; split <;> rfl

/-- The update step on a matching aggregate. -/
theorem updFor_eq (t : Transaction) (g : CounterpartyAggregate) (h : g.name = t.name) :
    updFor t g =
      { g with amount := g.amount + (t.amount.natAbs : Int), count := g.count + 1 } := by
  simp [updFor, h]

/-- The update step on a non-matching aggregate. -/
theorem updFor_skip (t : Transaction) (g : CounterpartyAggregate) (h : ¬ g.name = t.name) :
    updFor t g = g := by
  simp [updFor, h]

/-- Names are unchanged by the update map. -/
theorem namesOf_map_updFor (t : Transaction) (l : List CounterpartyAggregate) :
    namesOf (l.map (updFor t)) = namesOf l := by
  simp only [namesOf, List.map_map]
  exact List.map_congr_left (fun g _ => updFor_name t g)

/-- The update map is the identity when no aggregate carries the name. -/
theorem map_updFor_id (t : Transaction) (l : List CounterpartyAggregate)
    (h : t.name ∉ namesOf l) : l.map (updFor t) = l := by
  induction l with
  | nil => rfl
  | cons g gs ih =>
    simp only [namesOf, List.map_cons, List.mem_cons, not_or] at h
    rw [List.map_cons, updFor_skip t g (fun e => h.1 e.symm), ih (by simpa [namesOf] using h.2)]

theorem amountFor_nil (n : String) : amountFor n [] = 0 := rfl

theorem amountFor_cons (n : String) (g : CounterpartyAggregate)
    (l : List CounterpartyAggregate) :
    amountFor n (g :: l) = (if g.name = n then g.amount else 0) + amountFor n l := by
  unfold amountFor
  by_cases h : g.name = n <;> simp [List.filter_cons, h]

theorem amountFor_append (n : String) (l₁ l₂ : List CounterpartyAggregate) :
    amountFor n (l₁ ++ l₂) = amountFor n l₁ + amountFor n l₂ := by
  unfold amountFor
  simp [List.filter_append]

theorem countFor_nil (n : String) : countFor n [] = 0 := rfl

theorem countFor_cons (n : String) (g : CounterpartyAggregate)
    (l : List CounterpartyAggregate) :
    countFor n (g :: l) = (if g.name = n then g.count else 0) + countFor n l := by
  unfold countFor
  by_cases h : g.name = n <;> simp [List.filter_cons, h]

theorem countFor_append (n : String) (l₁ l₂ : List CounterpartyAggregate) :
    countFor n (l₁ ++ l₂) = countFor n l₁ + countFor n l₂ := by
  unfold countFor
  simp [List.filter_append]

theorem totCnt_cons (g : CounterpartyAggregate) (l : List CounterpartyAggregate) :
    totCnt (g :: l) = g.count + totCnt l := by
  simp [totCnt]

theorem totCnt_append (l₁ l₂ : List CounterpartyAggregate) :
    totCnt (l₁ ++ l₂) = totCnt l₁ + totCnt l₂ := by
  simp [totCnt]

/-- Effect of the update map on the amount held for a name, when the updated
name is present exactly once. -/
theorem amountFor_map_updFor (t : Transaction) (l : List CounterpartyAggregate)
    (n : String) (hnd : (namesOf l).Nodup) (hmem : t.name ∈ namesOf l) :
    amountFor n (l.map (updFor t)) =
      amountFor n l + (if t.name = n then (t.amount.natAbs : Int) else 0) := by
  induction l with
  | nil => simp [namesOf] at hmem
  | cons g gs ih =>
    simp only [namesOf, List.map_cons, List.nodup_cons] at hnd
    by_cases hg : g.name = t.name
    · have habs : t.name ∉ namesOf gs := hg ▸ hnd.1
      rw [List.map_cons, map_updFor_id t gs habs, updFor_eq t g hg,
        amountFor_cons, amountFor_cons]
      by_cases hn : t.name = n
      · rw [if_pos hn, if_pos (show g.name = n from hg.trans hn),
          if_pos (show g.name = n from hg.trans hn)]
        ring
      · rw [if_neg hn, if_neg (fun e : g.name = n => hn (hg ▸ e)),
          if_neg (fun e : g.name = n => hn (hg ▸ e))]
        ring
    · have hmem' : t.name ∈ namesOf gs := by
        rcases List.mem_cons.1 (show t.name ∈ g.name :: namesOf gs from hmem) with e | h
        · exact absurd e.symm hg
        · exact h
      rw [List.map_cons, updFor_skip t g hg, amountFor_cons, amountFor_cons,
        ih hnd.2 hmem']
      ring

/-- Effect of the update map on the count held for a name. -/
theorem countFor_map_updFor (t : Transaction) (l : List CounterpartyAggregate)
    (n : String) (hnd : (namesOf l).Nodup) (hmem : t.name ∈ namesOf l) :
    countFor n (l.map (updFor t)) =
      countFor n l + (if t.name = n then 1 else 0) := by
  induction l with
  | nil => simp [namesOf] at hmem
  | cons g gs ih =>
    simp only [namesOf, List.map_cons, List.nodup_cons] at hnd
    by_cases hg : g.name = t.name
    · have habs : t.name ∉ namesOf gs := hg ▸ hnd.1
      rw [List.map_cons, map_updFor_id t gs habs, updFor_eq t g hg,
        countFor_cons, countFor_cons]
      by_cases hn : t.name = n
      · rw [if_pos hn, if_pos (show g.name = n from hg.trans hn),
          if_pos (show g.name = n from hg.trans hn)]
        ring
      · rw [if_neg hn, if_neg (fun e : g.name = n => hn (hg ▸ e)),
          if_neg (fun e : g.name = n => hn (hg ▸ e))]
        ring
    · have hmem' : t.name ∈ namesOf gs := by
        rcases List.mem_cons.1 (show t.name ∈ g.name :: namesOf gs from hmem) with e | h
        · exact absurd e.symm hg
        · exact h
      rw [List.map_cons, updFor_skip t g hg, countFor_cons, countFor_cons,
        ih hnd.2 hmem']
      ring

/-- Effect of the update map on the total count. -/
theorem totCnt_map_updFor (t : Transaction) (l : List CounterpartyAggregate)
    (hnd : (namesOf l).Nodup) (hmem : t.name ∈ namesOf l) :
    totCnt (l.map (updFor t)) = totCnt l + 1 := by
  induction l with
  | nil => simp [namesOf] at hmem
  | cons g gs ih =>
    simp only [namesOf, List.map_cons, List.nodup_cons] at hnd
    by_cases hg : g.name = t.name
    · have habs : t.name ∉ namesOf gs := hg ▸ hnd.1
      rw [List.map_cons, map_updFor_id t gs habs, updFor_eq t g hg,
        totCnt_cons, totCnt_cons]
      simp
      ring
    · have hmem' : t.name ∈ namesOf gs := by
        rcases List.mem_cons.1 (show t.name ∈ g.name :: namesOf gs from hmem) with e | h
        · exact absurd e.symm hg
        · exact h
      rw [List.map_cons, updFor_skip t g hg, totCnt_cons, totCnt_cons, ih hnd.2 hmem']
      ring

/-- The presence test of line 69 read through `namesOf`. -/
theorem any_name_iff (groups : List CounterpartyAggregate) (t : Transaction) :
    (groups.any fun g => decide (g.name = t.name)) = true ↔ t.name ∈ namesOf groups := by
  unfold namesOf
  rw [List.any_eq_true]
  constructor
  · rintro ⟨g, hg, hd⟩
    exact List.mem_map.2 ⟨g, hg, of_decide_eq_true hd⟩
  · intro hm
    rcases List.mem_map.1 hm with ⟨g, hg, he⟩
    exact ⟨g, hg, decide_eq_true he⟩

/-- Names after one loop iteration: unchanged when the name was present,
appended otherwise. -/
theorem names_addTxn (acc : List CounterpartyAggregate) (t : Transaction)
    (hp : t.name ∉ objectProtoKeys) :
    namesOf (addTxn acc t) =
      if t.name ∈ namesOf acc then namesOf acc else namesOf acc ++ [t.name] := by
  unfold addTxn
  by_cases h : t.name ∈ namesOf acc
  · rw [if_pos ((any_name_iff acc t).2 h), if_pos h, namesOf_map_updFor]
  · rw [if_neg (fun hb => h ((any_name_iff acc t).1 hb)), if_neg hp, if_neg h,
      namesOf_map_updFor]
    simp [namesOf]

/-- Name-uniqueness is preserved by one loop iteration. -/
theorem nodup_addTxn (acc : List CounterpartyAggregate) (t : Transaction)
    (hp : t.name ∉ objectProtoKeys) (hnd : (namesOf acc).Nodup) :
    (namesOf (addTxn acc t)).Nodup := by
  rw [names_addTxn acc t hp]
  by_cases h : t.name ∈ namesOf acc
  · rwa [if_pos h]
  · rw [if_neg h]
    simp [List.nodup_append, hnd, h]

/-- Amount bookkeeping of one loop iteration. -/
theorem amountFor_addTxn (acc : List CounterpartyAggregate) (t : Transaction)
    (n : String) (hp : t.name ∉ objectProtoKeys) (hnd : (namesOf acc).Nodup) :
    amountFor n (addTxn acc t) =
      amountFor n acc + (if t.name = n then (t.amount.natAbs : Int) else 0) := by
  unfold addTxn
  by_cases h : t.name ∈ namesOf acc
  · rw [if_pos ((any_name_iff acc t).2 h)]
    exact amountFor_map_updFor t acc n hnd h
  · rw [if_neg (fun hb => h ((any_name_iff acc t).1 hb)), if_neg hp]
    have hnd2 : (namesOf (acc ++ [{ name := t.name, amount := 0, count := 0 }])).Nodup := by
      simp [namesOf, List.nodup_append]
      exact ⟨by simpa [namesOf] using hnd, by simpa [namesOf] using h⟩
    have hmem2 : t.name ∈ namesOf (acc ++ [{ name := t.name, amount := 0, count := 0 }]) := by
      simp [namesOf]
    rw [amountFor_map_updFor t _ n hnd2 hmem2, amountFor_append, amountFor_cons]
    by_cases hn : t.name = n <;> simp [hn, amountFor_nil]

/-- Count bookkeeping of one loop iteration. -/
theorem countFor_addTxn (acc : List CounterpartyAggregate) (t : Transaction)
    (n : String) (hp : t.name ∉ objectProtoKeys) (hnd : (namesOf acc).Nodup) :
    countFor n (addTxn acc t) =
      countFor n acc + (if t.name = n then 1 else 0) := by
  unfold addTxn
  by_cases h : t.name ∈ namesOf acc
  · rw [if_pos ((any_name_iff acc t).2 h)]
    exact countFor_map_updFor t acc n hnd h
  · rw [if_neg (fun hb => h ((any_name_iff acc t).1 hb)), if_neg hp]
    have hnd2 : (namesOf (acc ++ [{ name := t.name, amount := 0, count := 0 }])).Nodup := by
      simp [namesOf, List.nodup_append]
      exact ⟨by simpa [namesOf] using hnd, by simpa [namesOf] using h⟩
    have hmem2 : t.name ∈ namesOf (acc ++ [{ name := t.name, amount := 0, count := 0 }]) := by
      simp [namesOf]
    rw [countFor_map_updFor t _ n hnd2 hmem2, countFor_append, countFor_cons]
    by_cases hn : t.name = n <;> simp [hn, countFor_nil]

/-- Total-count bookkeeping of one loop iteration: each transaction adds
exactly one to the sum of all counts. -/
theorem totCnt_addTxn (acc : List CounterpartyAggregate) (t : Transaction)
    (hp : t.name ∉ objectProtoKeys) (hnd : (namesOf acc).Nodup) :
    totCnt (addTxn acc t) = totCnt acc + 1 := by
  unfold addTxn
  by_cases h : t.name ∈ namesOf acc
  · rw [if_pos ((any_name_iff acc t).2 h)]
    exact totCnt_map_updFor t acc hnd h
  · rw [if_neg (fun hb => h ((any_name_iff acc t).1 hb)), if_neg hp]
    have hnd2 : (namesOf (acc ++ [{ name := t.name, amount := 0, count := 0 }])).Nodup := by
      simp [namesOf, List.nodup_append]
      exact ⟨by simpa [namesOf] using hnd, by simpa [namesOf] using h⟩
    have hmem2 : t.name ∈ namesOf (acc ++ [{ name := t.name, amount := 0, count := 0 }]) := by
      simp [namesOf]
    rw [totCnt_map_updFor t _ hnd2 hmem2, totCnt_append, totCnt_cons]
    simp [totCnt]

theorem txnAbsSum_cons (n : String) (t : Transaction) (ts : List Transaction) :
    txnAbsSum n (t :: ts) =
      (if t.name = n then (t.amount.natAbs : Int) else 0) + txnAbsSum n ts := by
  unfold txnAbsSum
  by_cases h : t.name = n <;> simp [List.filter_cons, h]

theorem txnCountFor_cons (n : String) (t : Transaction) (ts : List Transaction) :
    txnCountFor n (t :: ts) =
      (if t.name = n then 1 else 0) + txnCountFor n ts := by
  unfold txnCountFor
  by_cases h : t.name = n
  · simp [List.filter_cons, h]
    omega
  · simp [List.filter_cons, h]

/-- The full loop invariant of the `forEach` of lines 68-74, over any
accumulator with unique names, for inputs whose names do not collide with
`Object.prototype` properties. -/
theorem foldl_addTxn_spec (ts : List Transaction) : ∀ acc : List CounterpartyAggregate,
    (∀ t ∈ ts, t.name ∉ objectProtoKeys) → (namesOf acc).Nodup →
    (namesOf (ts.foldl addTxn acc)).Nodup
  ∧ (∀ n, amountFor n (ts.foldl addTxn acc) = amountFor n acc + txnAbsSum n ts)
  ∧ (∀ n, countFor n (ts.foldl addTxn acc) = countFor n acc + txnCountFor n ts)
  ∧ namesOf (ts.foldl addTxn acc) =
      ts.foldl (fun ns t => if t.name ∈ ns then ns else ns ++ [t.name]) (namesOf acc)
  ∧ totCnt (ts.foldl addTxn acc) = totCnt acc + ts.length := by
  induction ts with
  | nil =>
    intro acc hts h
    exact ⟨h, fun n => by simp [txnAbsSum], fun n => by simp [txnCountFor], rfl, rfl⟩
  | cons t ts ih =>
    intro acc hts h
    have hp : t.name ∉ objectProtoKeys := hts t (List.mem_cons_self t ts)
    have hts' : ∀ x ∈ ts, x.name ∉ objectProtoKeys :=
      fun x hx => hts x (List.mem_cons_of_mem t hx)
    obtain ⟨ih1, ih2, ih3, ih4, ih5⟩ := ih (addTxn acc t) hts' (nodup_addTxn acc t hp h)
    refine ⟨ih1, ?_, ?_, ?_, ?_⟩
    · intro n
      rw [List.foldl_cons, ih2 n, amountFor_addTxn acc t n hp h, txnAbsSum_cons]
      ring
    · intro n
      rw [List.foldl_cons, ih3 n, countFor_addTxn acc t n hp h, txnCountFor_cons]
      ring
    · rw [List.foldl_cons, ih4, List.foldl_cons, names_addTxn acc t hp]
    · rw [List.foldl_cons, ih5, totCnt_addTxn acc t hp h, List.length_cons]
      ring

/-- The grouped list has pairwise-distinct names. -/
theorem buildPeople_nodup (ts : List Transaction)
    (hts : ∀ t ∈ ts, t.name ∉ objectProtoKeys) : (namesOf (buildPeople ts)).Nodup :=
  (foldl_addTxn_spec ts [] hts (by simp [namesOf])).1

/-- Total amount grouped under a name is the input's absolute sum for it. -/
theorem amountFor_buildPeople (ts : List Transaction)
    (hts : ∀ t ∈ ts, t.name ∉ objectProtoKeys) (n : String) :
    amountFor n (buildPeople ts) = txnAbsSum n ts := by
  have h := (foldl_addTxn_spec ts [] hts (by simp [namesOf])).2.1 n
  simpa [amountFor_nil] using h

/-- Total count grouped under a name is the input's cardinality for it. -/
theorem countFor_buildPeople (ts : List Transaction)
    (hts : ∀ t ∈ ts, t.name ∉ objectProtoKeys) (n : String) :
    countFor n (buildPeople ts) = txnCountFor n ts := by
  have h := (foldl_addTxn_spec ts [] hts (by simp [namesOf])).2.2.1 n
  simpa [countFor_nil] using h

/-- The grouped names appear in first-occurrence order. -/
theorem names_buildPeople (ts : List Transaction)
    (hts : ∀ t ∈ ts, t.name ∉ objectProtoKeys) :
    namesOf (buildPeople ts) = firstOccNames (ts.map (fun t => t.name)) := by
  have h := (foldl_addTxn_spec ts [] hts (by simp [namesOf])).2.2.2.1
  rw [firstOccNames, List.foldl_map]
  simpa [namesOf] using h

/-- The counts of all groups sum to the number of input transactions. -/
theorem totCnt_buildPeople (ts : List Transaction)
    (hts : ∀ t ∈ ts, t.name ∉ objectProtoKeys) :
    totCnt (buildPeople ts) = ts.length := by
  have h := (foldl_addTxn_spec ts [] hts (by simp [namesOf])).2.2.2.2
  simpa [totCnt] using h

/-- With pairwise-distinct names, filtering for a member's name isolates it. -/
theorem filter_name_single (l : List CounterpartyAggregate)
    (g : CounterpartyAggregate) (hnd : (namesOf l).Nodup) (hm : g ∈ l) :
    l.filter (fun x => decide (x.name = g.name)) = [g] := by
  induction l with
  | nil => cases hm
  | cons h hs ih =>
    have hnd' : h.name ∉ namesOf hs ∧ (namesOf hs).Nodup := by
      rw [show namesOf (h :: hs) = h.name :: namesOf hs from rfl, List.nodup_cons] at hnd
      exact hnd
    rcases List.mem_cons.1 hm with rfl | hm'
    · rw [List.filter_cons_of_pos (by simp)]
      have hnil : hs.filter (fun x => decide (x.name = g.name)) = [] := by
        rw [List.filter_eq_nil_iff]
        intro x hx
        simp only [decide_eq_true_eq]
        intro e
        exact hnd'.1 (List.mem_map.2 ⟨x, hx, e⟩)
      rw [hnil]
    · have hne : ¬ h.name = g.name := by
        intro e
        exact hnd'.1 (List.mem_map.2 ⟨g, hm', e.symm⟩)
      rw [List.filter_cons_of_neg (by simpa using hne), ih hnd'.2 hm']

/-- Every group of `buildPeople` carries exactly the absolute sum and the
cardinality of its name's transactions. -/
theorem mem_buildPeople_spec (ts : List Transaction)
    (hts : ∀ t ∈ ts, t.name ∉ objectProtoKeys) (g : CounterpartyAggregate)
    (hm : g ∈ buildPeople ts) :
    g.amount = txnAbsSum g.name ts ∧ g.count = txnCountFor g.name ts := by
  have h1 := amountFor_buildPeople ts hts g.name
  have h2 := countFor_buildPeople ts hts g.name
  rw [amountFor, filter_name_single _ g (buildPeople_nodup ts hts) hm] at h1
  rw [countFor, filter_name_single _ g (buildPeople_nodup ts hts) hm] at h2
  constructor
  · simpa using h1
  · simpa using h2

/-- Insertion is a permutation. -/
theorem insertByAmount_perm (g : CounterpartyAggregate)
    (l : List CounterpartyAggregate) : List.Perm (insertByAmount g l) (g :: l) := by
  induction l with
  | nil => exact List.Perm.refl _
  | cons h t ih =>
    by_cases hc : h.amount ≤ g.amount
    · rw [insertByAmount, if_pos hc]
    · rw [insertByAmount, if_neg hc]
      exact (List.Perm.cons h ih).trans (List.Perm.swap g h t)

/-- The sort is a permutation. -/
theorem sortByAmountDesc_perm (l : List CounterpartyAggregate) :
    List.Perm (sortByAmountDesc l) l := by
  induction l with
  | nil => exact List.Perm.refl _
  | cons h t ih => exact (insertByAmount_perm h _).trans (List.Perm.cons h ih)

/-- Insertion preserves descending order. -/
theorem pairwise_insertByAmount (g : CounterpartyAggregate)
    (l : List CounterpartyAggregate)
    (hl : l.Pairwise (fun a b => b.amount ≤ a.amount)) :
    (insertByAmount g l).Pairwise (fun a b => b.amount ≤ a.amount) := by
  induction l with
  | nil => simp [insertByAmount]
  | cons h t ih =>
    rw [List.pairwise_cons] at hl
    obtain ⟨hh, ht⟩ := hl
    by_cases hc : h.amount ≤ g.amount
    · rw [insertByAmount, if_pos hc, List.pairwise_cons]
      refine ⟨?_, List.pairwise_cons.2 ⟨hh, ht⟩⟩
      intro b hb
      rcases List.mem_cons.1 hb with rfl | hb'
      · exact hc
      · exact le_trans (hh b hb') hc
    · rw [insertByAmount, if_neg hc, List.pairwise_cons]
      refine ⟨?_, ih ht⟩
      intro b hb
      rcases List.mem_cons.1 ((insertByAmount_perm g t).mem_iff.1 hb) with rfl | hb'
      · exact le_of_lt (lt_of_not_le hc)
      · exact hh b hb'

/-- The sort result is descending by amount. -/
theorem pairwise_sortByAmountDesc (l : List CounterpartyAggregate) :
    (sortByAmountDesc l).Pairwise (fun a b => b.amount ≤ a.amount) := by
  induction l with
  | nil => simp [sortByAmountDesc]
  | cons h t ih => exact pairwise_insertByAmount h _ ih

/-- Insertion is stable under the amount-fiber filter: the inserted element
lands in front of the equal-amount entries already present. -/
theorem filter_insertByAmount (g : CounterpartyAggregate)
    (l : List CounterpartyAggregate) (v : Int) :
    (insertByAmount g l).filter (fun x => decide (x.amount = v)) =
      (if g.amount = v then [g] else []) ++
        l.filter (fun x => decide (x.amount = v)) := by
  induction l with
  | nil =>
    by_cases h : g.amount = v <;> simp [insertByAmount, List.filter, h]
  | cons h t ih =>
    by_cases hc : h.amount ≤ g.amount
    · rw [insertByAmount, if_pos hc]
      by_cases hg : g.amount = v <;> by_cases hh : h.amount = v <;>
        simp [List.filter_cons, hg, hh]
    · rw [insertByAmount, if_neg hc]
      by_cases hh : h.amount = v
      · by_cases hg : g.amount = v
        · exact absurd (hg.trans hh.symm ▸ le_refl h.amount) hc
        · rw [List.filter_cons_of_pos (by simpa using hh), ih, if_neg hg,
            List.filter_cons_of_pos (by simpa using hh)]
          simp
      · rw [List.filter_cons_of_neg (by simpa using hh), ih,
          List.filter_cons_of_neg (by simpa using hh)]

/-- The sort is stable: each amount fiber keeps its original order. -/
theorem filter_sortByAmountDesc (l : List CounterpartyAggregate) (v : Int) :
    (sortByAmountDesc l).filter (fun x => decide (x.amount = v)) =
      l.filter (fun x => decide (x.amount = v)) := by
  induction l with
  | nil => rfl
  | cons h t ih =>
    rw [show sortByAmountDesc (h :: t) = insertByAmount h (sortByAmountDesc t) from rfl,
      filter_insertByAmount, ih]
    by_cases hh : h.amount = v
    · rw [if_pos hh, List.filter_cons_of_pos (by simpa using hh)]
      simp
    · rw [if_neg hh, List.filter_cons_of_neg (by simpa using hh)]
      simp

/-- A prefix of a list of naturals sums to at most the whole. -/
theorem take_sum_le (l : List Nat) (k : Nat) : (l.take k).sum ≤ l.sum := by
  conv_rhs => rw [← List.take_append_drop k l]
  rw [List.sum_append]
  exact Nat.le_add_right _ _

/-- Membership in the first-occurrence fold never leaves the accumulator
plus the input. -/
theorem mem_foldl_firstOcc (ns : List String) : ∀ (acc : List String) (x : String),
    x ∈ ns.foldl (fun a n => if n ∈ a then a else a ++ [n]) acc → x ∈ acc ∨ x ∈ ns := by
  induction ns with
  | nil => intro acc x h; exact Or.inl h
  | cons n ns ih =>
    intro acc x h
    rcases ih _ x h with h' | h'
    · have hb : x ∈ (if n ∈ acc then acc else acc ++ [n]) := h'
      by_cases hn : n ∈ acc
      · rw [if_pos hn] at hb
        exact Or.inl hb
      · rw [if_neg hn] at hb
        rcases List.mem_append.1 hb with h2 | h2
        · exact Or.inl h2
        · simp only [List.mem_singleton] at h2
          exact Or.inr (by simp [h2])
    · exact Or.inr (List.mem_cons_of_mem n h')

/-- Every grouped name comes from the input. -/
theorem mem_names_buildPeople (ts : List Transaction)
    (hts : ∀ t ∈ ts, t.name ∉ objectProtoKeys) (n : String)
    (h : n ∈ namesOf (buildPeople ts)) : n ∈ ts.map (fun t => t.name) := by
  rw [names_buildPeople ts hts] at h
  rcases mem_foldl_firstOcc (ts.map (fun t => t.name)) [] n
      (by simpa [firstOccNames] using h) with h' | h'
  · cases h'
  · exact h'

/-- When no entry carries an array-index-like key, `Object.values` is plain
insertion order. -/
theorem jsValues_of_no_index (l : List CounterpartyAggregate)
    (h : ∀ g ∈ l, isCanonicalIndex g.name.data = false) : jsValues l = l := by
  unfold jsValues
  have h1 : l.filter (fun g => isCanonicalIndex g.name.data) = [] := by
    rw [List.filter_eq_nil_iff]
    intro g hg
    simp [h g hg]
  have h2 : l.filter (fun g => !isCanonicalIndex g.name.data) = l := by
    rw [List.filter_eq_self]
    intro g hg
    simp [h g hg]
  rw [h1, h2]
  rfl

/-- For inputs with plain names (no `Object.prototype` collisions, no
array-index-like keys) the whole enumeration collapses to the truncated
stable sort of the insertion-ordered grouping. -/
theorem getTopPeople_plain (ts : List Transaction)
    (hplain : ∀ t ∈ ts, t.name ∉ objectProtoKeys ∧ isCanonicalIndex t.name.data = false) :
    getTopPeople ts = (sortByAmountDesc (buildPeople ts)).take 5 := by
  have hts1 : ∀ t ∈ ts, t.name ∉ objectProtoKeys := fun t ht => (hplain t ht).1
  have hj : jsValues (buildPeople ts) = buildPeople ts := by
    apply jsValues_of_no_index
    intro g hg
    have hn : g.name ∈ ts.map (fun t => t.name) :=
      mem_names_buildPeople ts hts1 g.name (List.mem_map.2 ⟨g, hg, rfl⟩)
    rcases List.mem_map.1 hn with ⟨t, ht, he⟩
    exact he ▸ (hplain t ht).2
  unfold getTopPeople
  rw [hj]

/-- C4 counterexample: the claim fails on the program for two families of
names. A counterparty named `constructor` finds the inherited
`Object.prototype.constructor` truthy at line 69, so no own entry is ever
created and `Object.values` drops it: the output is empty instead of the
one-group ranking. Names that are array-index-like keys are enumerated by
`Object.values` in ascending numeric order, not insertion order, so the
equal-amount tie between names `"2"` (first occurrence) and `"1"` comes out
`"1", "2"`, violating the claimed first-occurrence tie-break. -/
theorem claim4_counterexample :
    getTopPeople [⟨0, -50, "constructor"⟩] = []
  ∧ getTopPeople [⟨0, -50, "constructor"⟩] ≠ [⟨"constructor", 50, 1⟩]
  ∧ getTopPeople [⟨0, 5, "2"⟩, ⟨0, 5, "1"⟩] = [⟨"1", 5, 1⟩, ⟨"2", 5, 1⟩]
  ∧ getTopPeople [⟨0, 5, "2"⟩, ⟨0, 5, "1"⟩] ≠ [⟨"2", 5, 1⟩, ⟨"1", 5, 1⟩] := by
  refine ⟨by decide, by decide, by decide, by decide⟩

/-- C4 amended: for every transaction list whose names neither collide with
an `Object.prototype` property nor form an array-index-like key, the ranker
groups by exact name equality (each returned aggregate carries the
absolute-amount sum and the cardinality of its name's transactions), the
output is the first five of the stable descending-by-amount sort of the
grouping (so ties keep first-occurrence order, which is how the grouping
lists its names), its length is at most five, the returned counts sum to at
most the input length, and the empty input yields the empty sequence. -/
theorem claim4_ranker_spec (ts : List Transaction)
    (hplain : ∀ t ∈ ts, t.name ∉ objectProtoKeys ∧ isCanonicalIndex t.name.data = false) :
    (getTopPeople ts).length ≤ 5
  ∧ (getTopPeople ts).Pairwise (fun a b => b.amount ≤ a.amount)
  ∧ (∀ g, g ∈ getTopPeople ts →
      g.amount = txnAbsSum g.name ts ∧ g.count = txnCountFor g.name ts)
  ∧ (∀ v, (sortByAmountDesc (buildPeople ts)).filter (fun x => decide (x.amount = v)) =
      (buildPeople ts).filter (fun x => decide (x.amount = v)))
  ∧ namesOf (buildPeople ts) = firstOccNames (ts.map (fun t => t.name))
  ∧ totCnt (getTopPeople ts) ≤ ts.length
  ∧ getTopPeople [] = []
  ∧ getTopPeople ts = (sortByAmountDesc (buildPeople ts)).take 5 := by
  have hts1 : ∀ t ∈ ts, t.name ∉ objectProtoKeys := fun t ht => (hplain t ht).1
  have htop := getTopPeople_plain ts hplain
  refine ⟨?_, ?_, ?_, fun v => filter_sortByAmountDesc _ v, names_buildPeople ts hts1,
    ?_, rfl, htop⟩
  · rw [htop, List.length_take]
    omega
  · rw [htop]
    exact List.Pairwise.sublist (List.take_sublist 5 _) (pairwise_sortByAmountDesc _)
  · intro g hg
    rw [htop] at hg
    have hg1 : g ∈ sortByAmountDesc (buildPeople ts) := List.take_subset 5 _ hg
    exact mem_buildPeople_spec ts hts1 g ((sortByAmountDesc_perm _).mem_iff.1 hg1)
  · rw [htop]
    have h1 : totCnt ((sortByAmountDesc (buildPeople ts)).take 5) ≤
        totCnt (sortByAmountDesc (buildPeople ts)) := by
      rw [totCnt, totCnt, List.map_take]
      exact take_sum_le _ 5
    have h2 : totCnt (sortByAmountDesc (buildPeople ts)) = totCnt (buildPeople ts) :=
      List.Perm.sum_eq ((sortByAmountDesc_perm (buildPeople ts)).map (fun g => g.count))
    rw [h2, totCnt_buildPeople ts hts1] at h1
    exact h1

theorem claim4_witness :
    ((⟨"Bob", 80, 2⟩ : CounterpartyAggregate) ∈ getTopPeople demoTxns)
  ∧ (⟨"Bob", 80, 2⟩ : CounterpartyAggregate).amount = txnAbsSum "Bob" demoTxns
  ∧ (⟨"Bob", 80, 2⟩ : CounterpartyAggregate).count = txnCountFor "Bob" demoTxns := by
  have h := (claim4_ranker_spec demoTxns (by decide)).2.2.1 ⟨"Bob", 80, 2⟩ (by decide)
  exact ⟨by decide, h.1, h.2⟩
